import Mathlib

/-!
Shallow embedding of `emg_support_functions.py` (EMG/TMS analysis).

A trial signal is a finite list of sampled amplitudes, modelled over `ℚ`.
`scipy.signal.find_peaks(x, prominence=0.05)` is embedded faithfully:
local maxima come from the scan of scipy's `_local_maxima_1d` (plateau
midpoints), and the prominence of each candidate follows scipy's
`_peak_prominences` with no window length restriction.  Partial Python
operations (indexing an empty array, `numpy` max/min of an empty slice,
a division by zero) are modelled with `Option`, where `none` marks the
exception the Python code raises at that point.
-/

set_option allowUnsafeReducibility true

attribute [semireducible] Rat.add Rat.mul Rat.sub Rat.div Rat.inv

set_option maxRecDepth 400000

/-- One trial's EMG recording: ordered samples, modelled over `ℚ`. -/
abbrev Signal := List ℚ

/-- Sample access as a total function; every access the scans perform is
in bounds, out-of-range indices default to 0. -/
def sigOf (x : Signal) : Nat → ℚ := fun i => x.getD i 0

/-- Inner scan of scipy's local-maxima search: the number of consecutive
samples from `i` on that still hold the plateau value `v`, with `fuel`
positions left before the scan bound; structural in `fuel` so the kernel
can evaluate it. -/
def plateauExtra (g : Nat → ℚ) (v : ℚ) : Nat → Nat → Nat
  | 0, _ => 0
  | fuel + 1, i => if g i = v then plateauExtra g v fuel (i + 1) + 1 else 0

/-- Starting at `i`, the first index that is `iMax` or holds a value
different from `v` (end of the inner plateau scan of `_local_maxima_1d`):
while `i < iMax ∧ g i = v`, advance. -/
def plateauEnd (g : Nat → ℚ) (v : ℚ) (iMax : Nat) (i : Nat) : Nat :=
  i + plateauExtra g v (iMax - i) i

/-- Main scan of scipy's `_local_maxima_1d`, from position `i` while
`i < iMax` (the final sample cannot be a maximum): a strict rise at `i`
followed, after a possible plateau, by a strict fall yields the plateau
midpoint, and the scan resumes after the plateau.  `fuel` only bounds the
iteration count (each step advances `i` by at least one, so any
`fuel ≥ iMax - i` is exact). -/
def localMaximaAux (g : Nat → ℚ) (iMax : Nat) : Nat → Nat → List Nat
  | 0, _ => []
  | fuel + 1, i =>
    if i < iMax then
      if g (i - 1) < g i then
        if g (plateauEnd g (g i) iMax (i + 1)) < g i then
          (i + (plateauEnd g (g i) iMax (i + 1) - 1)) / 2 ::
            localMaximaAux g iMax fuel (plateauEnd g (g i) iMax (i + 1) + 1)
        else
          localMaximaAux g iMax fuel (i + 1)
      else
        localMaximaAux g iMax fuel (i + 1)
    else
      []

/-- The local-maxima scan started, as in scipy, at position 1. -/
def localMaximaFrom (g : Nat → ℚ) (iMax : Nat) (i : Nat) : List Nat :=
  localMaximaAux g iMax iMax i

/-- Left half of scipy's `_peak_prominences` scan: walk left from `i` while
the sample stays `≤ v`, returning the running minimum (seeded with `cur`). -/
def leftMin (g : Nat → ℚ) (v : ℚ) : Nat → ℚ → ℚ
  | 0, cur => if g 0 ≤ v then min cur (g 0) else cur
  | i + 1, cur => if g (i + 1) ≤ v then leftMin g v i (min cur (g (i + 1))) else cur

/-- Right half of scipy's `_peak_prominences` scan with explicit fuel
(`fuel = iMax + 1 - i` positions left): walk right from `i` while
`i ≤ iMax` and the sample stays `≤ v`, returning the running minimum. -/
def rightMinAux (g : Nat → ℚ) (v : ℚ) : Nat → Nat → ℚ → ℚ
  | 0, _, cur => cur
  | fuel + 1, i, cur => if g i ≤ v then rightMinAux g v fuel (i + 1) (min cur (g i)) else cur

/-- Right half of scipy's `_peak_prominences` scan: walk right from `i`
while `i ≤ iMax` and the sample stays `≤ v`, returning the running minimum. -/
def rightMin (g : Nat → ℚ) (v : ℚ) (iMax : Nat) (i : Nat) (cur : ℚ) : ℚ :=
  rightMinAux g v (iMax + 1 - i) i cur

/-- Prominence of the candidate peak at index `p` of a signal of `n`
samples, as computed by scipy's `_peak_prominences` (no `wlen`). -/
def promOf (g : Nat → ℚ) (n : Nat) (p : Nat) : ℚ :=
  g p - max (leftMin g (g p) p (g p)) (rightMin g (g p) (n - 1) p (g p))

/-- `scipy.signal.find_peaks(x, prominence=0.05)` over `n` samples: local
maxima whose prominence is at least 1/20, in increasing index order. -/
def findPeaksF (g : Nat → ℚ) (n : Nat) : List Nat :=
  (localMaximaFrom g (n - 1) 1).filter fun p => decide ((1 : ℚ) / 20 ≤ promOf g n p)

/-- `scipy.signal.find_peaks(x, prominence=0.05)` on a signal. -/
def find_peaks (x : Signal) : List Nat := findPeaksF (sigOf x) x.length

/-- `find_tms_pulse`: first qualifying peak of the signal; if there is
none, first qualifying peak of the negated signal.  `none` marks the
`IndexError` Python raises indexing `peaks[0]` on an empty array. -/
def find_tms_pulse (x : Signal) : Option Nat :=
  if (find_peaks x).length = 0 then (find_peaks (x.map fun v => -v)).head?
  else (find_peaks x).head?

/-- `is_mep`: true iff strictly more than one qualifying peak. -/
def is_mep (x : Signal) : Bool :=
  if 1 < (find_peaks x).length then true else false

/-- `find_mep_timing`: the second qualifying peak's index when a MEP is
present; the Python returns the empty list `[]` otherwise, modelled as
`none`. -/
def find_mep_timing (x : Signal) : Option Nat :=
  if is_mep x then (find_peaks x).get? 1 else none

/-- Clamp of one bound of a Python slice `x[a:b]` over a sequence of `n`
elements: negative bounds count from the end (and clamp at 0), others
clamp at `n`. -/
def pyBound (n : Nat) (a : Int) : Nat :=
  if a < 0 then (n + a).toNat else min a.toNat n

/-- Python slice `x[a:b]` with integer bounds. -/
def pySlice (x : Signal) (a b : Int) : Signal :=
  (x.drop (pyBound x.length a)).take (pyBound x.length b - pyBound x.length a)

/-- `numpy.max` of a sequence: `none` on the empty sequence, where numpy
raises. -/
def npMax : Signal → Option ℚ
  | [] => none
  | h :: t => some (t.foldl max h)

/-- `numpy.min` of a sequence: `none` on the empty sequence, where numpy
raises. -/
def npMin : Signal → Option ℚ
  | [] => none
  | h :: t => some (t.foldl min h)

/-- `get_mep_size`: peak-to-peak amplitude of the Python slice
`x[t-50 : t+50]` around the MEP timing `t`.  `none` marks a raised
exception: the `TypeError` on `[] - 50` when no MEP was detected, or the
`ValueError` of `numpy.max` when the slice is empty. -/
def get_mep_size (x : Signal) : Option ℚ :=
  match find_mep_timing x with
  | none => none
  | some t =>
    match npMax (pySlice x ((t : Int) - 50) ((t : Int) + 50)),
          npMin (pySlice x ((t : Int) - 50) ((t : Int) + 50)) with
    | some hi, some lo => some (hi - lo)
    | _, _ => none

/-- Per-trial results of `plot_recruitment_curve`'s first loop: a measured
size for each column classified as containing a MEP, `none` otherwise. -/
def mep_sizes (df : List Signal) : List (Option ℚ) :=
  df.map fun c => if is_mep c then get_mep_size c else none

/-- Sum and count of the present (non-`none`) sizes among the `len`
entries starting at `lo`, as accumulated by the Python loops. -/
def presentSum (sizes : List (Option ℚ)) (lo len : Nat) : ℚ × Nat :=
  (List.range len).foldl
    (fun acc i =>
      match sizes.getD (lo + i) none with
      | some v => (acc.1 + v, acc.2 + 1)
      | none => acc)
    (0, 0)

/-- One iteration of the `tms_intensity` loop of `plot_recruitment_curve`:
the running sum and counter are NOT reset between intensities (they are
reset once, before the loop), and the group value is the running
sum/counter; `none` marks Python's `ZeroDivisionError` when the counter is
still zero. -/
def rcStep (sizes : List (Option ℚ)) (st : ℚ × Nat × List (Option ℚ)) (k : Nat) :
    ℚ × Nat × List (Option ℚ) :=
  (st.1 + (presentSum sizes (6 + 6 * k) 6).1,
   st.2.1 + (presentSum sizes (6 + 6 * k) 6).2,
   st.2.2 ++ [if st.2.1 + (presentSum sizes (6 + 6 * k) 6).2 = 0 then none
              else some ((st.1 + (presentSum sizes (6 + 6 * k) 6).1) /
                         (st.2.1 + (presentSum sizes (6 + 6 * k) 6).2))])

/-- The recruitment-curve aggregation of `plot_recruitment_curve`: entry 0
is the mean of the present sizes of trials [0,12); entries 1..5 come from
the accumulating loop over intensities 110..150.  `none` marks the
`ZeroDivisionError` Python raises at that entry. -/
def plot_recruitment_curve (df : List Signal) : List (Option ℚ) :=
  (if (presentSum (mep_sizes df) 0 12).2 = 0 then none
   else some ((presentSum (mep_sizes df) 0 12).1 / (presentSum (mep_sizes df) 0 12).2)) ::
    ([1, 2, 3, 4, 5].foldl (rcStep (mep_sizes df)) (0, 0, [])).2.2

/-- Start of recruitment group `k` in trial order (spec: group 0 is
[0,12), group k = 1..5 is [12+6(k-1), 18+6(k-1)), i.e. starts at 6+6k). -/
def groupStart (k : Nat) : Nat :=
  if k = 0 then 0 else 6 + 6 * k

/-- Number of trials of recruitment group `k` (spec: 12 baseline trials,
then 6 per intensity). -/
def groupLen (k : Nat) : Nat :=
  if k = 0 then 12 else 6

/-- The present (non-absent) per-trial sizes of group `k`. -/
def groupPresent (sizes : List (Option ℚ)) (k : Nat) : List ℚ :=
  ((sizes.drop (groupStart k)).take (groupLen k)).filterMap id

/-- Modelled from the spec: the arithmetic mean, over only group `k`'s
present per-trial MEP sizes, that the spec says each reported group value
equals; undefined (`none`) when the group has no present value. -/
def specGroupMean (sizes : List (Option ℚ)) (k : Nat) : Option ℚ :=
  if groupPresent sizes k = [] then none
  else some ((groupPresent sizes k).sum / (groupPresent sizes k).length)

/-- Modelled from the spec: the samples of the signal whose indices lie
strictly within the half-open window [t-50, t+50). -/
def specWindowVals (x : Signal) (t : Nat) : Signal :=
  (((List.range x.length).filter fun i => decide (t - 50 ≤ i ∧ i < t + 50)).map
    fun i => x.getD i 0)

/-- A 5-sample trial column carrying a measurable MEP of size `v` (two
peaks of prominence `v`, at indices 1 and 3). -/
def colSig (v : ℚ) : Signal := [0, v, 0, v, 0]

/-- A 5-sample trial column with no peak at all (MEP absent). -/
def flatSig : Signal := List.replicate 5 0

/-- 42-trial dataset: group 0 (trials 0-11) and group 1 (trials 12-17)
have MEPs of size 1, group 2 (trials 18-23) MEPs of size 3, groups 3-5
MEPs of size 1. -/
def dsC1 : List Signal :=
  List.replicate 12 (colSig 1) ++ (List.replicate 6 (colSig 1) ++
    (List.replicate 6 (colSig 3) ++ List.replicate 18 (colSig 1)))

/-- 42-trial dataset: trials 0-11 have MEPs of size 1, trials 12-17
(group 1, 110 percent RMT) are all absent, trials 18-41 have MEPs of
size 1. -/
def dsC8 : List Signal :=
  List.replicate 12 (colSig 1) ++ (List.replicate 6 flatSig ++
    List.replicate 24 (colSig 1))

/-- 100-sample signal with unit peaks at indices 10 and 20: the detected
MEP timing is 20, less than 50 samples from the start. -/
def sigEarly : Signal := ((List.replicate 100 (0 : ℚ)).set 10 1).set 20 1

/-- 100-sample signal with unit peaks at indices 12 and 22: the detected
MEP timing is 22, less than 50 samples from the start. -/
def sigEarly2 : Signal := ((List.replicate 100 (0 : ℚ)).set 12 1).set 22 1

/-- 60-sample signal with unit peaks at indices 10 and 55: the detected
MEP timing is 55, at least 50 samples from the start. -/
def sigLate : Signal := ((List.replicate 60 (0 : ℚ)).set 10 1).set 55 1

theorem plateauEnd_ge (g : Nat → ℚ) (v : ℚ) (iMax : Nat) (i : Nat) :
    i ≤ plateauEnd g v iMax i :=
  Nat.le_add_right i (plateauExtra g v (iMax - i) i)

theorem rat_min_add (a b c : ℚ) : min (a + c) (b + c) = min a b + c := by
  rcases le_total a b with h | h
  · rw [min_eq_left h, min_eq_left (by linarith)]
  · rw [min_eq_right h, min_eq_right (by linarith)]

theorem rat_max_add (a b c : ℚ) : max (a + c) (b + c) = max a b + c := by
  rcases le_total a b with h | h
  · rw [max_eq_right h, max_eq_right (by linarith)]
  · rw [max_eq_left h, max_eq_left (by linarith)]

theorem plateauExtra_le (g : Nat → ℚ) (v : ℚ) :
    ∀ (fuel i : Nat), plateauExtra g v fuel i ≤ fuel
  | 0, _ => Nat.le_refl 0
  | fuel + 1, i => by
    simp only [plateauExtra]
    split
    · have := plateauExtra_le g v fuel (i + 1)
      omega
    · omega

theorem plateauEnd_le (g : Nat → ℚ) (v : ℚ) (iMax i : Nat) (h : i ≤ iMax) :
    plateauEnd g v iMax i ≤ iMax := by
  have := plateauExtra_le g v (iMax - i) i
  simp only [plateauEnd]
  omega

theorem plateauExtra_shift (g : Nat → ℚ) (v c : ℚ) :
    ∀ (fuel i : Nat),
      plateauExtra (fun j => g j + c) (v + c) fuel i = plateauExtra g v fuel i
  | 0, _ => rfl
  | fuel + 1, i => by
    simp only [plateauExtra, add_left_inj]
    split
    · rw [plateauExtra_shift g v c fuel (i + 1)]
    · rfl

theorem plateauEnd_shift (g : Nat → ℚ) (v c : ℚ) (iMax i : Nat) :
    plateauEnd (fun j => g j + c) (v + c) iMax i = plateauEnd g v iMax i := by
  simp only [plateauEnd, plateauExtra_shift]

theorem plateauExtra_congr (g h : Nat → ℚ) (v : ℚ) :
    ∀ (fuel i : Nat), (∀ j, i ≤ j → j < i + fuel → g j = h j) →
      plateauExtra g v fuel i = plateauExtra h v fuel i
  | 0, _, _ => rfl
  | fuel + 1, i, hgh => by
    have hi : g i = h i := hgh i (Nat.le_refl i) (by omega)
    simp only [plateauExtra, hi]
    split
    · rw [plateauExtra_congr g h v fuel (i + 1) (fun j h1 h2 => hgh j (by omega) (by omega))]
    · rfl

theorem plateauEnd_congr (g h : Nat → ℚ) (v : ℚ) (iMax i : Nat)
    (hgh : ∀ j, i ≤ j → j < iMax → g j = h j) :
    plateauEnd g v iMax i = plateauEnd h v iMax i := by
  simp only [plateauEnd]
  rw [plateauExtra_congr g h v (iMax - i) i (fun j h1 h2 => hgh j h1 (by omega))]

theorem leftMin_shift (g : Nat → ℚ) (v c : ℚ) :
    ∀ (i : Nat) (cur : ℚ),
      leftMin (fun j => g j + c) (v + c) i (cur + c) = leftMin g v i cur + c
  | 0, cur => by
    simp only [leftMin, add_le_add_iff_right, rat_min_add]
    split
    · rfl
    · rfl
  | i + 1, cur => by
    simp only [leftMin, add_le_add_iff_right]
    split
    · rw [rat_min_add, leftMin_shift g v c i (min cur (g (i + 1)))]
    · rfl

theorem leftMin_congr (g h : Nat → ℚ) (v : ℚ) :
    ∀ (i : Nat) (cur : ℚ), (∀ j, j ≤ i → g j = h j) →
      leftMin g v i cur = leftMin h v i cur
  | 0, cur, hgh => by
    simp only [leftMin, hgh 0 (Nat.le_refl 0)]
  | i + 1, cur, hgh => by
    simp only [leftMin, hgh (i + 1) (Nat.le_refl (i + 1))]
    split
    · rw [leftMin_congr g h v i (min cur (h (i + 1))) (fun j hj => hgh j (by omega))]
    · rfl

theorem rightMinAux_shift (g : Nat → ℚ) (v c : ℚ) :
    ∀ (fuel i : Nat) (cur : ℚ),
      rightMinAux (fun j => g j + c) (v + c) fuel i (cur + c) = rightMinAux g v fuel i cur + c
  | 0, _, _ => rfl
  | fuel + 1, i, cur => by
    simp only [rightMinAux, add_le_add_iff_right]
    split
    · rw [rat_min_add, rightMinAux_shift g v c fuel (i + 1) (min cur (g i))]
    · rfl

theorem rightMinAux_congr (g h : Nat → ℚ) (v : ℚ) :
    ∀ (fuel i : Nat) (cur : ℚ), (∀ j, i ≤ j → j < i + fuel → g j = h j) →
      rightMinAux g v fuel i cur = rightMinAux h v fuel i cur
  | 0, _, _, _ => rfl
  | fuel + 1, i, cur, hgh => by
    simp only [rightMinAux, hgh i (Nat.le_refl i) (by omega)]
    split
    · rw [rightMinAux_congr g h v fuel (i + 1) (min cur (h i))
        (fun j h1 h2 => hgh j (by omega) (by omega))]
    · rfl

theorem rightMin_shift (g : Nat → ℚ) (v c : ℚ) (iMax i : Nat) (cur : ℚ) :
    rightMin (fun j => g j + c) (v + c) iMax i (cur + c) = rightMin g v iMax i cur + c := by
  simp only [rightMin, rightMinAux_shift]

theorem promOf_shift (g : Nat → ℚ) (c : ℚ) (n p : Nat) :
    promOf (fun j => g j + c) n p = promOf g n p := by
  simp only [promOf, leftMin_shift, rightMin_shift, rat_max_add, add_sub_add_right_eq_sub]

theorem promOf_congr (g h : Nat → ℚ) (n p : Nat) (hp : p < n)
    (hgh : ∀ j, j < n → g j = h j) : promOf g n p = promOf h n p := by
  have hgp : g p = h p := hgh p hp
  simp only [promOf, rightMin, hgp]
  rw [leftMin_congr g h (h p) p (h p) (fun j hj => hgh j (by omega)),
    rightMinAux_congr g h (h p) (n - 1 + 1 - p) p (h p) (fun j h1 h2 => hgh j (by omega))]

theorem localMaximaAux_mem (g : Nat → ℚ) (iMax : Nat) :
    ∀ (fuel i p : Nat), p ∈ localMaximaAux g iMax fuel i → i ≤ p ∧ p < iMax
  | 0, _, _, hp => by simp [localMaximaAux] at hp
  | fuel + 1, i, p, hp => by
    simp only [localMaximaAux] at hp
    by_cases hi : i < iMax
    · rw [if_pos hi] at hp
      by_cases h1 : g (i - 1) < g i
      · rw [if_pos h1] at hp
        have hge : i + 1 ≤ plateauEnd g (g i) iMax (i + 1) := plateauEnd_ge g (g i) iMax (i + 1)
        have hle : plateauEnd g (g i) iMax (i + 1) ≤ iMax :=
          plateauEnd_le g (g i) iMax (i + 1) (by omega)
        by_cases h2 : g (plateauEnd g (g i) iMax (i + 1)) < g i
        · rw [if_pos h2] at hp
          rcases List.mem_cons.mp hp with hmid | htail
          · omega
          · have := localMaximaAux_mem g iMax fuel (plateauEnd g (g i) iMax (i + 1) + 1) p htail
            omega
        · rw [if_neg h2] at hp
          have := localMaximaAux_mem g iMax fuel (i + 1) p hp
          omega
      · rw [if_neg h1] at hp
        have := localMaximaAux_mem g iMax fuel (i + 1) p hp
        omega
    · rw [if_neg hi] at hp
      simp at hp

theorem localMaximaAux_pairwise (g : Nat → ℚ) (iMax : Nat) :
    ∀ (fuel i : Nat), List.Pairwise (fun a b => a < b) (localMaximaAux g iMax fuel i)
  | 0, _ => List.Pairwise.nil
  | fuel + 1, i => by
    simp only [localMaximaAux]
    by_cases hi : i < iMax
    · rw [if_pos hi]
      by_cases h1 : g (i - 1) < g i
      · rw [if_pos h1]
        by_cases h2 : g (plateauEnd g (g i) iMax (i + 1)) < g i
        · rw [if_pos h2]
          refine List.Pairwise.cons ?_ (localMaximaAux_pairwise g iMax fuel _)
          intro p hp
          have hmem := localMaximaAux_mem g iMax fuel (plateauEnd g (g i) iMax (i + 1) + 1) p hp
          have hge : i + 1 ≤ plateauEnd g (g i) iMax (i + 1) :=
            plateauEnd_ge g (g i) iMax (i + 1)
          omega
        · rw [if_neg h2]
          exact localMaximaAux_pairwise g iMax fuel (i + 1)
      · rw [if_neg h1]
        exact localMaximaAux_pairwise g iMax fuel (i + 1)
    · rw [if_neg hi]
      exact List.Pairwise.nil

theorem localMaximaAux_shift (g : Nat → ℚ) (c : ℚ) (iMax : Nat) :
    ∀ (fuel i : Nat),
      localMaximaAux (fun j => g j + c) iMax fuel i = localMaximaAux g iMax fuel i
  | 0, _ => rfl
  | fuel + 1, i => by
    simp only [localMaximaAux, plateauEnd_shift, add_lt_add_iff_right]
    by_cases hi : i < iMax
    · rw [if_pos hi, if_pos hi]
      by_cases h1 : g (i - 1) < g i
      · rw [if_pos h1, if_pos h1]
        by_cases h2 : g (plateauEnd g (g i) iMax (i + 1)) < g i
        · rw [if_pos h2, if_pos h2,
            localMaximaAux_shift g c iMax fuel (plateauEnd g (g i) iMax (i + 1) + 1)]
        · rw [if_neg h2, if_neg h2, localMaximaAux_shift g c iMax fuel (i + 1)]
      · rw [if_neg h1, if_neg h1, localMaximaAux_shift g c iMax fuel (i + 1)]
    · rw [if_neg hi, if_neg hi]

theorem localMaximaAux_congr (g h : Nat → ℚ) (iMax : Nat) :
    ∀ (fuel i : Nat), (∀ j, j ≤ iMax → g j = h j) →
      localMaximaAux g iMax fuel i = localMaximaAux h iMax fuel i
  | 0, _, _ => rfl
  | fuel + 1, i, hgh => by
    simp only [localMaximaAux]
    by_cases hi : i < iMax
    · rw [if_pos hi, if_pos hi]
      have e1 : g (i - 1) = h (i - 1) := hgh (i - 1) (by omega)
      have e2 : g i = h i := hgh i (by omega)
      have epe : plateauEnd g (g i) iMax (i + 1) = plateauEnd h (h i) iMax (i + 1) := by
        rw [e2]
        exact plateauEnd_congr g h (h i) iMax (i + 1) (fun j h1 h2 => hgh j (by omega))
      have hge : i + 1 ≤ plateauEnd g (g i) iMax (i + 1) := plateauEnd_ge g (g i) iMax (i + 1)
      have hle : plateauEnd g (g i) iMax (i + 1) ≤ iMax :=
        plateauEnd_le g (g i) iMax (i + 1) (by omega)
      have e3 : g (plateauEnd g (g i) iMax (i + 1)) = h (plateauEnd h (h i) iMax (i + 1)) := by
        rw [← epe]
        exact hgh (plateauEnd g (g i) iMax (i + 1)) hle
      rw [e3, epe, e1, e2]
      by_cases h1 : h (i - 1) < h i
      · rw [if_pos h1, if_pos h1]
        by_cases h2 : h (plateauEnd h (h i) iMax (i + 1)) < h i
        · rw [if_pos h2, if_pos h2,
            localMaximaAux_congr g h iMax fuel (plateauEnd h (h i) iMax (i + 1) + 1) hgh]
        · rw [if_neg h2, if_neg h2, localMaximaAux_congr g h iMax fuel (i + 1) hgh]
      · rw [if_neg h1, if_neg h1, localMaximaAux_congr g h iMax fuel (i + 1) hgh]
    · rw [if_neg hi, if_neg hi]

theorem findPeaksF_shift (g : Nat → ℚ) (c : ℚ) (n : Nat) :
    findPeaksF (fun j => g j + c) n = findPeaksF g n := by
  simp only [findPeaksF, localMaximaFrom, localMaximaAux_shift, promOf_shift]

theorem findPeaksF_congr (g h : Nat → ℚ) (n : Nat) (hgh : ∀ j, j < n → g j = h j) :
    findPeaksF g n = findPeaksF h n := by
  cases n with
  | zero => rfl
  | succ m =>
    simp only [findPeaksF, localMaximaFrom, Nat.add_sub_cancel]
    rw [localMaximaAux_congr g h m m 1 (fun j hj => hgh j (by omega))]
    refine List.filter_congr ?_
    intro p hp
    have hb := localMaximaAux_mem h m m 1 p hp
    rw [promOf_congr g h (m + 1) p (by omega) hgh]

theorem find_peaks_mem (x : Signal) (p : Nat) (hp : p ∈ find_peaks x) :
    1 ≤ p ∧ p < x.length - 1 := by
  simp only [find_peaks, findPeaksF, localMaximaFrom, List.mem_filter] at hp
  exact localMaximaAux_mem (sigOf x) (x.length - 1) (x.length - 1) 1 p hp.1

theorem find_peaks_pairwise (x : Signal) :
    List.Pairwise (fun a b => a < b) (find_peaks x) :=
  List.Pairwise.filter _ (localMaximaAux_pairwise (sigOf x) (x.length - 1) (x.length - 1) 1)

theorem sigOf_map_add (x : Signal) (c : ℚ) (j : Nat) (hj : j < x.length) :
    sigOf (x.map fun v => v + c) j = sigOf x j + c := by
  simp only [sigOf]
  rw [List.getD_eq_getElem?_getD, List.getD_eq_getElem?_getD, List.getElem?_map,
    List.getElem?_eq_getElem hj]
  rfl

theorem find_peaks_map_add (x : Signal) (c : ℚ) :
    find_peaks (x.map fun v => v + c) = find_peaks x := by
  unfold find_peaks
  rw [List.length_map,
    findPeaksF_congr (sigOf (x.map fun v => v + c)) (fun j => sigOf x j + c) x.length
      (fun j hj => sigOf_map_add x c j hj),
    findPeaksF_shift]

theorem is_mep_map_add (x : Signal) (c : ℚ) :
    is_mep (x.map fun v => v + c) = is_mep x := by
  unfold is_mep
  rw [find_peaks_map_add]

theorem find_mep_timing_map_add (x : Signal) (c : ℚ) :
    find_mep_timing (x.map fun v => v + c) = find_mep_timing x := by
  unfold find_mep_timing
  rw [find_peaks_map_add, is_mep_map_add]

theorem foldl_max_add (c : ℚ) :
    ∀ (t : List ℚ) (a : ℚ), (t.map fun v => v + c).foldl max (a + c) = t.foldl max a + c
  | [], _ => rfl
  | h :: t, a => by
    simp only [List.map_cons, List.foldl_cons, rat_max_add]
    exact foldl_max_add c t (max a h)

theorem foldl_min_add (c : ℚ) :
    ∀ (t : List ℚ) (a : ℚ), (t.map fun v => v + c).foldl min (a + c) = t.foldl min a + c
  | [], _ => rfl
  | h :: t, a => by
    simp only [List.map_cons, List.foldl_cons, rat_min_add]
    exact foldl_min_add c t (min a h)

theorem npMax_map_add (w : Signal) (c : ℚ) :
    npMax (w.map fun v => v + c) = (npMax w).map fun v => v + c := by
  cases w with
  | nil => rfl
  | cons h t =>
    simp only [npMax, List.map_cons, foldl_max_add]
    rfl

theorem npMin_map_add (w : Signal) (c : ℚ) :
    npMin (w.map fun v => v + c) = (npMin w).map fun v => v + c := by
  cases w with
  | nil => rfl
  | cons h t =>
    simp only [npMin, List.map_cons, foldl_min_add]
    rfl

theorem pySlice_map (x : Signal) (f : ℚ → ℚ) (a b : Int) :
    pySlice (x.map f) a b = (pySlice x a b).map f := by
  simp only [pySlice, List.length_map, List.map_drop, List.map_take]

theorem get_mep_size_map_add (x : Signal) (c : ℚ) :
    get_mep_size (x.map fun v => v + c) = get_mep_size x := by
  cases ht : find_mep_timing x with
  | none =>
    simp only [get_mep_size, find_mep_timing_map_add, ht]
  | some t =>
    simp only [get_mep_size, find_mep_timing_map_add, ht, pySlice_map, npMax_map_add,
      npMin_map_add]
    cases npMax (pySlice x ((t : Int) - 50) ((t : Int) + 50)) with
    | none => rfl
    | some hi =>
      cases npMin (pySlice x ((t : Int) - 50) ((t : Int) + 50)) with
      | none => rfl
      | some lo =>
        simp only [Option.map, add_sub_add_right_eq_sub]

theorem filter_range_eq_range' (s e : Nat) :
    ∀ n : Nat, (List.range n).filter (fun i => decide (s ≤ i ∧ i < e)) =
      List.range' s (min e n - s)
  | 0 => by simp
  | n + 1 => by
    rw [List.range_succ, List.filter_append, filter_range_eq_range' s e n]
    by_cases hn : s ≤ n ∧ n < e
    · have he : min e (n + 1) - s = (min e n - s) + 1 := by omega
      have hs : s + (min e n - s) = n := by omega
      rw [he, List.range'_concat]
      simp only [one_mul]
      rw [hs]
      simp [hn]
    · have he : min e (n + 1) - s = min e n - s := by omega
      rw [he]
      simp [hn]

theorem dropTake_eq_map_range' (x : Signal) (s k : Nat) :
    (x.drop s).take k =
      (List.range' s (min k (x.length - s))).map (fun i => x.getD i 0) := by
  apply List.ext_getElem
  · simp [Nat.min_comm]
  · intro i h1 h2
    have hik : i < min k (x.length - s) := by
      simp at h1
      omega
    have hin : s + i < x.length := by omega
    rw [List.getElem_take, List.getElem_drop, List.getElem_map, List.getElem_range']
    simp only [one_mul]
    rw [List.getD_eq_getElem?_getD, List.getElem?_eq_getElem hin]
    rfl

theorem pySlice_window (x : Signal) (t : Nat) (h50 : 50 ≤ t) (hlt : t < x.length) :
    pySlice x ((t : Int) - 50) ((t : Int) + 50) = specWindowVals x t := by
  have ha : ¬((t : Int) - 50 < 0) := by omega
  have hb : ¬((t : Int) + 50 < 0) := by omega
  simp only [pySlice, pyBound, if_neg ha, if_neg hb, specWindowVals]
  have h1 : ((t : Int) - 50).toNat = t - 50 := by omega
  have h2 : ((t : Int) + 50).toNat = t + 50 := by omega
  rw [h1, h2]
  have h3 : min (t - 50) x.length = t - 50 := by omega
  rw [h3, dropTake_eq_map_range', filter_range_eq_range']
  have h4 : min (min (t + 50) x.length - (t - 50)) (x.length - (t - 50)) =
      min (t + 50) x.length - (t - 50) := by omega
  rw [h4]

theorem timing_is_second_peak (x : Signal) (t : Nat) (ht : find_mep_timing x = some t) :
    (find_peaks x).get? 1 = some t ∧ 1 < (find_peaks x).length := by
  unfold find_mep_timing at ht
  by_cases h : is_mep x
  · rw [if_pos h] at ht
    refine ⟨ht, ?_⟩
    have := List.get?_mem ht
    by_contra hc
    rw [List.get?_eq_none.mpr (by omega)] at ht
    exact Option.noConfusion ht
  · rw [if_neg h] at ht
    exact Option.noConfusion ht

theorem timing_lt_length (x : Signal) (t : Nat) (ht : find_mep_timing x = some t) :
    t < x.length := by
  obtain ⟨h1, _⟩ := timing_is_second_peak x t ht
  have hm := List.get?_mem h1
  have := find_peaks_mem x t hm
  omega

theorem specWindowVals_ne_nil (x : Signal) (t : Nat) (hlt : t < x.length) :
    specWindowVals x t ≠ [] := by
  have hmem : t ∈ (List.range x.length).filter (fun i => decide (t - 50 ≤ i ∧ i < t + 50)) :=
    List.mem_filter.mpr ⟨List.mem_range.mpr hlt, by simp⟩
  intro hc
  simp only [specWindowVals] at hc
  rw [List.map_eq_nil_iff] at hc
  rw [hc] at hmem
  simp at hmem

/-- Claim C1: for the 42-trial dataset `dsC1` (group 2's trials all carry
MEPs of size 3), the spec's per-group mean of group 2 is 3, but the code
reports 2 for group 2, because the running sum and counter of the
intensity loop are reset only once, before the loop, so groups 2-5
receive cumulative means over all trials since trial 12.  This refutes
the claim that each reported group value is the mean of only that group's
present sizes. -/
theorem recruitment_cumulative_mean_bug :
    specGroupMean (mep_sizes dsC1) 2 = some 3 ∧
    (plot_recruitment_curve dsC1).getD 2 none = some 2 := by decide

/-- Claim C2: `is_mep` is true exactly when the signal has strictly more
than one qualifying peak (prominence at least 0.05); in particular it is
false whenever there are fewer than two. -/
theorem has_mep_iff_two_peaks (x : Signal) :
    is_mep x = true ↔ 1 < (find_peaks x).length := by
  unfold is_mep
  by_cases h : 1 < (find_peaks x).length
  · simp [h]
  · simp [h]

/-- Claim C3: with at least two qualifying peaks, `find_mep_timing`
returns the index at position 1 of the ordered peak sequence; when the
classifier reports no MEP it returns the absent marker through its return
value (the Python returns `[]`), not an exception. -/
theorem mep_timing_second_or_absent (x : Signal) :
    (1 < (find_peaks x).length →
      ∃ i, (find_peaks x).get? 1 = some i ∧ find_mep_timing x = some i) ∧
    (is_mep x = false → find_mep_timing x = none) := by
  constructor
  · intro hlen
    have hm : is_mep x = true := by
      unfold is_mep
      rw [if_pos hlen]
    refine ⟨(find_peaks x).get ⟨1, hlen⟩, List.get?_eq_get hlen, ?_⟩
    simp only [find_mep_timing, hm, if_true]
    exact List.get?_eq_get hlen
  · intro hf
    simp only [find_mep_timing, hf]
    rfl

theorem mep_timing_second_or_absent_witness :
    (∃ i, (find_peaks (colSig 1)).get? 1 = some i ∧ find_mep_timing (colSig 1) = some i) ∧
    find_mep_timing flatSig = none :=
  ⟨(mep_timing_second_or_absent (colSig 1)).1 (by decide),
   (mep_timing_second_or_absent flatSig).2 (by decide)⟩

/-- Claim C4, counterexample: on `sigEarly2` the MEP timing is 22, the
peak-to-peak range over the samples of the window [22-50, 22+50) is
1 - 0, yet `get_mep_size` does not return it: the Python slice
`x[-28:72]` of the 100-sample signal is empty, and `numpy.max` raises. -/
theorem mep_size_window_claim_cex :
    find_mep_timing sigEarly2 = some 22 ∧
    npMax (specWindowVals sigEarly2 22) = some 1 ∧
    npMin (specWindowVals sigEarly2 22) = some 0 ∧
    get_mep_size sigEarly2 = none := by decide

/-- Claim C4 (amended with `50 ≤ t`): whenever `find_mep_timing` succeeds
with `t` and `t` is at least 50, `get_mep_size` returns the maximum minus
the minimum of the samples whose indices lie in [t-50, t+50). -/
theorem mep_size_window_peak_to_peak (x : Signal) (t : Nat)
    (ht : find_mep_timing x = some t) (h50 : 50 ≤ t) :
    ∃ hi lo, npMax (specWindowVals x t) = some hi ∧ npMin (specWindowVals x t) = some lo ∧
      get_mep_size x = some (hi - lo) := by
  have hlt : t < x.length := timing_lt_length x t ht
  have hw := pySlice_window x t h50 hlt
  obtain ⟨a, w, he⟩ := List.exists_cons_of_ne_nil (specWindowVals_ne_nil x t hlt)
  refine ⟨(w.foldl max a), (w.foldl min a), by rw [he]; rfl, by rw [he]; rfl, ?_⟩
  simp only [get_mep_size, ht, hw, he, npMax, npMin]

theorem mep_size_window_peak_to_peak_witness :
    ∃ hi lo, npMax (specWindowVals sigLate 55) = some hi ∧
      npMin (specWindowVals sigLate 55) = some lo ∧
      get_mep_size sigLate = some (hi - lo) :=
  mep_size_window_peak_to_peak sigLate 55 (by decide) (by decide)

/-- Claim C5: whenever `get_mep_size` is defined, adding a constant to
every sample leaves it unchanged. -/
theorem mep_size_shift_invariant (x : Signal) (c : ℚ) (_hdef : get_mep_size x ≠ none) :
    get_mep_size (x.map fun v => v + c) = get_mep_size x :=
  get_mep_size_map_add x c

theorem mep_size_shift_invariant_witness :
    get_mep_size ((colSig 1).map fun v => v + 7) = get_mep_size (colSig 1) :=
  mep_size_shift_invariant (colSig 1) 7 (by decide)

/-- Claim C6: `find_tms_pulse` returns the first qualifying peak of the
signal when one exists, and only otherwise the first qualifying peak of
the negated signal; a lone positive deflection yields its index, a lone
negative deflection yields the trough's index. -/
theorem locate_pulse_first_peak :
    (∀ x : Signal, find_peaks x ≠ [] → find_tms_pulse x = (find_peaks x).head?) ∧
    (∀ x : Signal, find_peaks x = [] →
      find_tms_pulse x = (find_peaks (x.map fun v => -v)).head?) ∧
    find_tms_pulse [0, 1, 0] = some 1 ∧ find_tms_pulse [0, -1, 0] = some 1 := by
  refine ⟨?_, ?_, by decide, by decide⟩
  · intro x hne
    unfold find_tms_pulse
    rw [if_neg (by simpa [List.length_eq_zero] using hne)]
  · intro x he
    unfold find_tms_pulse
    rw [if_pos (by simp [he])]

theorem locate_pulse_first_peak_witness :
    find_tms_pulse (colSig 1) = (find_peaks (colSig 1)).head? ∧
    find_tms_pulse flatSig = (find_peaks (flatSig.map fun v => -v)).head? :=
  ⟨locate_pulse_first_peak.1 (colSig 1) (by decide),
   locate_pulse_first_peak.2.1 flatSig (by decide)⟩

/-- Claim C7: on the flat all-zero signal no peak is found in either
polarity, and `find_tms_pulse` produces no index at all (the `none`
models the `IndexError` the Python raises indexing `peaks[0]` on an empty
array, not an explicit NoPulseDetected error), and `is_mep` is false. -/
theorem locate_pulse_flat_crash :
    find_tms_pulse flatSig = none ∧ is_mep flatSig = false := by decide

/-- Claim C8: on the 42-trial dataset `dsC8` whose group 1 (trials 12-17)
has no present MEP, group 0's mean is 1 but group 1's entry is the
division-by-zero condition (`none` models the `ZeroDivisionError` the
Python raises there rather than any defined undefined value). -/
theorem recruitment_empty_group_crash :
    (plot_recruitment_curve dsC8).getD 0 none = some 1 ∧
    (plot_recruitment_curve dsC8).getD 1 none = none := by decide

/-- Claim C9: on the 100-sample signal `sigEarly` the MEP timing 20 is
within 50 samples of the start, and `get_mep_size` faults (`none` models
the `ValueError` of `numpy.max` on the empty Python slice `x[-30:70]`)
instead of clipping the window to the valid bounds. -/
theorem mep_size_fault_near_start :
    find_mep_timing sigEarly = some 20 ∧ get_mep_size sigEarly = none := by decide

/-- Claim C10: whenever `is_mep` is true, the un-negated peak list is
nonempty, `find_tms_pulse` is its first element without any fallback to
the negated polarity, and that index is strictly smaller than the MEP
timing (the second element of the increasing peak sequence). -/
theorem pulse_precedes_mep_peak (x : Signal) (h : is_mep x = true) :
    find_peaks x ≠ [] ∧ find_tms_pulse x = (find_peaks x).head? ∧
    ∃ p0 p1, find_tms_pulse x = some p0 ∧ find_mep_timing x = some p1 ∧ p0 < p1 := by
  have hlen : 1 < (find_peaks x).length := by
    by_contra hc
    unfold is_mep at h
    rw [if_neg hc] at h
    exact Bool.noConfusion h
  obtain ⟨a, l1, he1⟩ := List.exists_cons_of_ne_nil
    (l := find_peaks x) (by intro hc; rw [hc] at hlen; simp at hlen)
  have hlen2 : l1 ≠ [] := by
    intro hc
    rw [he1, hc] at hlen
    simp at hlen
  obtain ⟨b, l2, he2⟩ := List.exists_cons_of_ne_nil hlen2
  have hne : find_peaks x ≠ [] := by
    rw [he1]
    exact List.cons_ne_nil a l1
  have hpulse : find_tms_pulse x = (find_peaks x).head? := by
    unfold find_tms_pulse
    rw [if_neg (by rw [he1]; simp)]
  have hpair := find_peaks_pairwise x
  rw [he1, he2] at hpair
  have hab : a < b := (List.pairwise_cons.mp hpair).1 b (List.mem_cons_self b l2)
  refine ⟨hne, hpulse, a, b, ?_, ?_, hab⟩
  · rw [hpulse, he1]
    rfl
  · simp only [find_mep_timing, h, if_true]
    rw [he1, he2]
    rfl

theorem pulse_precedes_mep_peak_witness :
    find_peaks (colSig 1) ≠ [] ∧
    find_tms_pulse (colSig 1) = (find_peaks (colSig 1)).head? ∧
    ∃ p0 p1, find_tms_pulse (colSig 1) = some p0 ∧
      find_mep_timing (colSig 1) = some p1 ∧ p0 < p1 :=
  pulse_precedes_mep_peak (colSig 1) (by decide)
